import Mathlib

/-!
Shallow embedding of the `chat` app of the axiom-ai repository
(`src/chat/views.py` and `src/chat/services.py`) and proofs about it.

Strings are modelled as Lean `String` (a wrapper around `List Char`); the
text-processing helpers of `views.py` are translated character by character.
Python's Unicode-aware `str.lower` / `str.isalnum` / whitespace handling is
modelled at the ASCII level (`Char.toLower`, `Char.isAlphanum`): on the ASCII
inputs the code's constants and the claims are about, the two coincide.
External collaborators (the Django ORM, the HTTP client, the cache, the MCP
subprocess, PIL) are modelled as explicit oracles passed in an environment,
and the side effects of a request are recorded as an explicit event trace.
-/

namespace Chat

/-- ASCII model of Python's default whitespace set for `str.strip` /
`str.split` (space, tab, newline, carriage return, vertical tab, form feed). -/
def pyIsSpace (c : Char) : Bool :=
  c == ' ' || c == '\t' || c == '\n' || c == '\r' || c == '\x0b' || c == '\x0c'

/-- `str.strip()` on the underlying character list. -/
def pyStripL (l : List Char) : List Char :=
  ((l.dropWhile pyIsSpace).reverse.dropWhile pyIsSpace).reverse

/-- Python `s.strip()`. -/
def pyStrip (s : String) : String :=
  ⟨pyStripL s.data⟩

/-- `str.rstrip()` on the underlying character list. -/
def rstripL (l : List Char) : List Char :=
  (l.reverse.dropWhile pyIsSpace).reverse

/-- `s[:n]` for strings. -/
def strTake (n : Nat) (s : String) : String :=
  ⟨s.data.take n⟩

/-- The per-character step of `_normalize_query`:
`ch if ch.isalnum() else " "`. -/
def cleanChar (c : Char) : Char :=
  if c.isAlphanum then c else ' '

/-- Accumulator worker for `wsSplit`; `acc` is the current token, reversed. -/
def wsSplitAux : List Char → List Char → List (List Char)
  | [], acc => if acc.isEmpty then [] else [acc.reverse]
  | c :: cs, acc =>
    if pyIsSpace c then
      if acc.isEmpty then wsSplitAux cs [] else acc.reverse :: wsSplitAux cs []
    else wsSplitAux cs (c :: acc)

/-- Python `str.split()` with no argument: split on runs of whitespace,
dropping empty pieces. -/
def wsSplit (l : List Char) : List (List Char) :=
  wsSplitAux l []

/-- `" ".join(tokens)` on character lists. -/
def joinSp : List (List Char) → List Char
  | [] => []
  | [t] => t
  | t :: ts => t ++ ' ' :: joinSp ts

/-- `_normalize_query` on the underlying character list: lowercase, replace
non-alphanumeric characters by spaces, collapse whitespace runs. -/
def normalizeL (l : List Char) : List Char :=
  joinSp (wsSplit ((l.map Char.toLower).map cleanChar))

/-- `views._normalize_query`. -/
def normalize_query (s : String) : String :=
  ⟨normalizeL s.data⟩

/-- Deduplication keeping first occurrences (`seen` is the set built so
far); models Python set construction, where only membership and cardinality
are ever used. -/
def dedupAux : List String → List String → List String
  | [], _ => []
  | s :: rest, seen =>
    if seen.contains s then dedupAux rest seen
    else s :: dedupAux rest (s :: seen)

/-- `views._tokenize`: the set of tokens of the normalized text with length
greater than 2.  Python returns a `set`; we model it as a deduplicated list. -/
def tokenize (s : String) : List String :=
  dedupAux
    (((wsSplit (normalizeL s.data)).filter (fun t => 2 < t.length)).map
      (fun t => (⟨t⟩ : String))) []

/-- Least-index substring search, as Python's `str.find` (for a nonempty
needle): `some i` is the least index at which `pat` occurs in `hay`,
`none` if it does not occur. -/
def findSub (hay pat : List Char) : Option Nat :=
  if pat.isPrefixOf hay then some 0
  else
    match hay with
    | [] => none
    | _ :: t => (findSub t pat).map (· + 1)

/-- `pat in hay` for strings (substring containment). -/
def containsSub (hay pat : List Char) : Bool :=
  (findSub hay pat).isSome

/-- `views._strip_sources_block`: find the first occurrence of `"sources:"`
in the lowercased text and discard everything from it on, right-stripping
the kept prefix; return the input unchanged when there is no occurrence. -/
def strip_sources_block (s : String) : String :=
  match findSub (s.data.map Char.toLower) "sources:".data with
  | none => s
  | some i => ⟨rstripL (s.data.take i)⟩

/-! Constants of `views.py`. -/

def MAX_HISTORY : Nat := 8

def SMALLTALK_SET : List String := ["hi", "hello", "hey", "yo", "sup", "hola"]

/-- `MIN_TOKEN_OVERLAP = 0.4`, represented exactly as the rational 2/5
(the comparison `len(overlap)/max(len(previous_tokens),1) >= 0.4` is modelled
as the exact inequality `5 * overlap >= 2 * max(prev, 1)`). -/
def MIN_TOKEN_OVERLAP_NUM : Nat := 2

def MIN_TOKEN_OVERLAP_DEN : Nat := 5

def DEFAULT_CACHE_TTL_SECONDS : Nat := 30 * 60

def FRESH_CACHE_TTL_SECONDS : Nat := 15 * 60

def FRESHNESS_KEYWORDS : List String :=
  ["latest", "today", "now", "current", "price", "release", "version", "new"]

/-- `views._can_reuse_context`. -/
def can_reuse_context (currentQuery previousQuery : String) : Bool :=
  let currentTokens := tokenize currentQuery
  let previousTokens := tokenize previousQuery
  if currentTokens.isEmpty || previousTokens.isEmpty then false
  else
    let overlap := currentTokens.filter (fun t => previousTokens.contains t)
    decide (MIN_TOKEN_OVERLAP_DEN * overlap.length ≥
      MIN_TOKEN_OVERLAP_NUM * max previousTokens.length 1)

/-- `views._cache_ttl_for_query`. -/
def cache_ttl_for_query (query : String) : Nat :=
  if (tokenize query).any (fun t => FRESHNESS_KEYWORDS.contains t) then
    FRESH_CACHE_TTL_SECONDS
  else DEFAULT_CACHE_TTL_SECONDS

/-- The identity-probe set of `views._static_response_for_query`. -/
def MODEL_INTENTS : List String :=
  ["what model are you", "which model are you", "what model are you running",
   "what model do you use", "who built you", "who made you",
   "who created you", "who are you", "are you openai"]

def MODEL_IDENTITY_REPLY : String :=
  "I'm Axiom, an AI research assistant. " ++
  "I don't disclose underlying model or provider details. " ++
  "If you have a task, I'm ready to help."

def SEAHORSE_REPLY : String :=
  "Here’s a seahorse image:\n\n![Seahorse](/static/chat/seahorse.svg)"

/-- `views._static_response_for_query`. -/
def static_response_for_query (normalized : String) : Option String :=
  if normalized == "" then none
  else if MODEL_INTENTS.contains normalized
      || "what model".data.isPrefixOf normalized.data
      || "who built".data.isPrefixOf normalized.data then
    some MODEL_IDENTITY_REPLY
  else if containsSub normalized.data "seahorse".data
      && (containsSub normalized.data "show".data
          || containsSub normalized.data "image".data
          || containsSub normalized.data "picture".data) then
    some SEAHORSE_REPLY
  else none

/-! The data shapes of `services.py`. -/

def SYSTEM_PROMPT : String :=
  "You are Axiom, a fast research assistant. Prioritize speed and accuracy. " ++
  "Use provided web context when available. Do not invent facts; acknowledge gaps."

/-- A normalized search result (`title`/`url`/`snippet`); a missing key is
the empty string. -/
structure SearchItem where
  title : String
  url : String
  snippet : String
deriving DecidableEq

/-- A fetched page (`url`/`content`). -/
structure FetchItem where
  url : String
  content : String
deriving DecidableEq

/-- The search payload dictionary with keys `results` and `fetched`
(a missing or empty dict is both lists empty). -/
structure Payload where
  results : List SearchItem
  fetched : List FetchItem
deriving DecidableEq

def emptyPayload : Payload := ⟨[], []⟩

/-- `views._payload_has_context`. -/
def payload_has_context (p : Payload) : Bool :=
  !p.results.isEmpty || !p.fetched.isEmpty

/-- `"\n".join`. -/
def joinNl : List String → String
  | [] => ""
  | [a] => a
  | a :: rest => a ++ "\n" ++ joinNl rest

/-- `" ".join`. -/
def joinSpace : List String → String
  | [] => ""
  | [a] => a
  | a :: rest => a ++ " " ++ joinSpace rest

/-- The lines `services.build_context_block` emits for one search result. -/
def contextLinesFor (it : SearchItem) : List String :=
  ("- " ++ it.title ++ ": " ++ it.url) ::
    (if it.snippet == "" then [] else ["  snippet: " ++ it.snippet])

/-- `services.build_context_block`. -/
def build_context_block (p : Payload) : String × List SearchItem :=
  let lines :=
    "Web search context:" :: ((p.results.take 6).map contextLinesFor).flatten ++
    (if p.fetched.isEmpty then []
     else "Fetched content excerpts:" ::
       p.fetched.map (fun f => "- " ++ f.url ++ ": " ++ f.content))
  (joinNl lines, p.results.take 6)

/-! Prompt messages as sent to the chat-completion endpoint. -/

/-- One part of a structured content list. -/
inductive PPart where
  | text (s : String)
  | imageUrl (url : String)
deriving DecidableEq

/-- Message content: a plain string or a structured list of parts. -/
inductive PContent where
  | str (s : String)
  | parts (ps : List PPart)
deriving DecidableEq

/-- A prompt message. -/
structure PMsg where
  role : String
  content : PContent
deriving DecidableEq

/-! The gateway `services.call_moonshot` / `services.call_moonshot_with_retry`.
The HTTP layer is an oracle: each outbound POST either times out, fails with
a status and body, or succeeds with an extracted assistant text. -/

/-- Configuration resolved from the environment (`MOONSHOT_API_KEY`,
`MOONSHOT_MODEL`); `none` models an absent variable. -/
structure MoonCfg where
  apiKey : Option String
  model : Option String
deriving DecidableEq

/-- Oracle outcome of one HTTP POST to the provider. -/
inductive HttpAttempt where
  | timeout
  | httpFail (status : Nat) (body : String)
  | ok (content : String)
deriving DecidableEq

/-- What `call_moonshot` does, observationally: return a string or raise. -/
inductive MoonOut where
  | ret (s : String)
  | exnTimeout
  | exnHttp (status : Nat) (body : String)
deriving DecidableEq

/-- Python falsiness of `os.getenv(...)`: absent or empty. -/
def blankOpt : Option String → Bool
  | none => true
  | some s => s == ""

def NOT_CONFIGURED_MSG : String :=
  "Moonshot API is not configured. Please set MOONSHOT_API_KEY and MOONSHOT_MODEL."

/-- `services.call_moonshot`.  The second component records whether an HTTP
request was attempted. -/
def call_moonshot (cfg : MoonCfg) (messages : List PMsg)
    (attempt : HttpAttempt) : MoonOut × Bool :=
  if blankOpt cfg.apiKey || blankOpt cfg.model then
    (MoonOut.ret NOT_CONFIGURED_MSG, false)
  else
    match attempt with
    | .timeout => (MoonOut.exnTimeout, true)
    | .httpFail st body => (MoonOut.exnHttp st body, true)
    | .ok content => (MoonOut.ret content, true)

/-- `services.call_moonshot_with_retry`: one retry, on `ReadTimeout` only.
`att n` is the oracle outcome of the `n`-th HTTP POST; the second component
counts the HTTP requests made. -/
def call_moonshot_with_retry (cfg : MoonCfg) (messages : List PMsg)
    (att : Nat → HttpAttempt) : MoonOut × Nat :=
  match call_moonshot cfg messages (att 0) with
  | (MoonOut.exnTimeout, b1) =>
    match call_moonshot cfg messages (att 1) with
    | (r2, b2) => (r2, (cond b1 1 0) + (cond b2 1 0))
  | (r1, b1) => (r1, cond b1 1 0)

/-! `services.mcp_search` / `services._run_mcp_search`.  The MCP subprocess
is an oracle; each tool call either raises or returns a raw value.  The raw
search value is abstracted to its `_normalize_search_results` outcome space:
either nothing parseable (normalization yields `[]`: the code catches its own
`JSONDecodeError` and returns `[]` rather than raising) or a list of items,
of which those without a `url` are skipped. -/

/-- Raw outcome of the `search` tool call, by parseability. -/
inductive SearchRaw where
  | unparseable
  | parsed (items : List SearchItem)
deriving DecidableEq

/-- An exception raised inside `_run_mcp_search` (subprocess or tool-call
failure); caught by `mcp_search`. -/
inductive McpFail where
  | toolError (msg : String)
  | subprocessError (msg : String)
deriving DecidableEq

/-- The MCP oracle: whether the `mcp` client library imports, and the outcome
of each tool call. -/
structure McpEnv where
  clientAvailable : Bool
  searchOutcome : String → Except McpFail SearchRaw
  fetchOutcome : String → Except McpFail String

/-- `services._normalize_search_results`, on the abstracted raw value:
unparseable input yields `[]`, and parsed items without a `url` are skipped. -/
def normalize_search_results : SearchRaw → List SearchItem
  | .unparseable => []
  | .parsed items => items.filter (fun it => !(it.url == ""))

/-- The fetch loop of `_run_mcp_search`: fetch each result's url in order,
truncating content to 1500 characters; a raised tool call propagates. -/
def fetchLoop (env : McpEnv) : List SearchItem → Except McpFail (List FetchItem)
  | [] => Except.ok []
  | it :: rest =>
    if it.url == "" then fetchLoop env rest
    else
      match env.fetchOutcome it.url with
      | Except.error e => Except.error e
      | Except.ok content =>
        match fetchLoop env rest with
        | Except.error e => Except.error e
        | Except.ok tail => Except.ok (⟨it.url, strTake 1500 content⟩ :: tail)

/-- `services._run_mcp_search`: returns the empty payload when the `mcp`
client is unavailable, otherwise calls the `search` tool, normalizes, and
fetches the first `maxFetch` results; a raised tool call propagates
(written with explicit matches: an `Except.error` is a raised exception). -/
def run_mcp_search (env : McpEnv) (query : String) (maxFetch : Nat) :
    Except McpFail Payload :=
  if !env.clientAvailable then Except.ok emptyPayload
  else
    match env.searchOutcome query with
    | Except.error e => Except.error e
    | Except.ok raw =>
      let results := normalize_search_results raw
      match fetchLoop env (results.take maxFetch) with
      | Except.error e => Except.error e
      | Except.ok fetched => Except.ok ⟨results, fetched⟩

/-- `services.mcp_search`: `asyncio.run(_run_mcp_search(...))` wrapped in
`try/except Exception`, every failure yielding the empty payload. -/
def mcp_search (env : McpEnv) (query : String) (maxFetch : Nat) : Payload :=
  match run_mcp_search env query maxFetch with
  | Except.ok p => p
  | Except.error _ => emptyPayload

/-! The request handler `views.chat_send`.  Collaborators are oracles in an
environment; the database writes, cache writes and outbound calls of a
request are recorded in order as an event trace.  The two `ChatMessage` rows
this turn creates (the user row and the empty assistant placeholder) are
persisted before the history query runs, so they take part in the last-8
window, exactly as in the code. -/

/-- The compressed image payload (`mime`/base64 data) built for an upload. -/
structure ImagePayload where
  mime : String
  dataB64 : String
deriving DecidableEq

/-- An uploaded file, opaque to the controller (only `_compress_image`
inspects it, and that is an oracle here). -/
structure Upload where
  raw : String
deriving DecidableEq

/-- Outcome of `views._compress_image`: a payload, or a `ValueError` with a
user-facing message (oversize or undecodable image). -/
inductive CompressOut where
  | ok (img : ImagePayload)
  | err (msg : String)

/-- A persisted `ChatMessage` row (role and content), in creation order. -/
structure DbMsg where
  role : String
  content : String
deriving DecidableEq

/-- The per-session cache entry `{"query": ..., "payload": ...}`. -/
structure CacheEntry where
  query : String
  payload : Payload

/-- A parsed `chat_send` request: stripped-later message text, optional
session id, optional upload (always absent on the JSON branch). -/
structure Request where
  message : String
  sessionId : Option Nat
  upload : Option Upload

/-- The oracle environment of one `chat_send` request. -/
structure Env where
  sessionExists : Nat → Bool
  freshId : Nat
  compress : Upload → CompressOut
  moonshot : List PMsg → MoonOut
  cacheGet : String → Option Payload
  sessionCacheGet : Nat → Option CacheEntry
  mcp : String → Payload

/-- One observable effect of a `chat_send` request, in program order. -/
inductive Ev where
  | resolveSession (id : Nat)
  | createSession (id : Nat)
  | createMessage (role content : String)
  | createAttachment
  | updateSession
  | visionCall (msgs : List PMsg)
  | mcpCall (query : String)
  | cacheSetQuery (key : String) (ttl : Nat)
  | cacheSetSession (sid : Nat) (ttl : Nat)
  | updateMessage (content : String)
  | chatCall (msgs : List PMsg)
deriving DecidableEq

/-- The JSON response of `chat_send`. -/
inductive Response where
  | err (status : Nat) (msg : String)
  | ok (sessionId : Nat) (assistantMessage : String)
deriving DecidableEq

def SMALLTALK_GREETING : String := "Hello! Ask me anything you want to research."

def EMPTY_INPUT_MSG : String := "Message cannot be empty."

def NO_SOURCES_MSG : String :=
  "I couldn't retrieve web sources for that question. Please try again."

def SLOW_MSG : String :=
  "The model is slow or unavailable right now. Please try again in a moment."

def VISION_SYSTEM : String :=
  "You are a vision assistant. Describe the image content concisely."

/-- The `data:` url embedding an image payload. -/
def dataUrl (img : ImagePayload) : String :=
  "data:" ++ img.mime ++ ";base64," ++ img.dataB64

/-- The vision prompt of the image-description call. -/
def visionMessages (messageText : String) (img : ImagePayload) : List PMsg :=
  [⟨"system", PContent.str VISION_SYSTEM⟩,
   ⟨"user", PContent.parts
     [PPart.text (if messageText == "" then "Describe the image." else messageText),
      PPart.imageUrl (dataUrl img)]⟩]

/-- The structured content of the single combined user message of an
image-bearing turn: the trimmed text parts joined by newlines (original text,
then the vision description, each when nonempty), then the image reference. -/
def imageContent (messageText visionDesc : String) (img : ImagePayload) :
    List PPart :=
  let textParts :=
    (if messageText == "" then [] else [messageText]) ++
    (if visionDesc == "" then [] else ["Image summary: " ++ visionDesc])
  (if textParts.isEmpty then [] else [PPart.text (joinNl textParts)]) ++
  [PPart.imageUrl (dataUrl img)]

/-- The session id the turn runs under: the given one, else a fresh one. -/
def resolvedSid (env : Env) (req : Request) : Nat :=
  match req.sessionId with
  | some sid => sid
  | none => env.freshId

/-- The session's pre-existing message rows: the stored ones for a resumed
session, none for a freshly created session. -/
def effectivePrior (prior : List DbMsg) (req : Request) : List DbMsg :=
  match req.sessionId with
  | some _ => prior
  | none => []

/-- The query-cache / session-cache / `mcp_search` block of a text-only turn
(`views.chat_send` lines 315-330).  The query cache is modelled as keyed by
the normalized text (the code keys it by its SHA-256, an injective
renaming).  Returns the chosen payload and the events the block emits. -/
def textContextStep (env : Env) (sid : Nat) (normalized messageText : String) :
    Payload × List Ev :=
  let cached := (env.cacheGet normalized).getD emptyPayload
  if payload_has_context cached then (cached, [])
  else
    let prevPayload := match env.sessionCacheGet sid with
      | some e => e.payload
      | none => emptyPayload
    let prevQuery := match env.sessionCacheGet sid with
      | some e => e.query
      | none => ""
    let ttl := cache_ttl_for_query messageText
    if payload_has_context prevPayload && can_reuse_context normalized prevQuery then
      (prevPayload, [Ev.cacheSetQuery normalized ttl, Ev.cacheSetSession sid ttl])
    else
      (env.mcp messageText,
       [Ev.mcpCall messageText, Ev.cacheSetQuery normalized ttl,
        Ev.cacheSetSession sid ttl])

/-- The history replay of a text-only turn: skip empty-content assistant
placeholders, emit each remaining row as a plain prompt message. -/
def buildHistoryPrompt (history : List DbMsg) : List PMsg :=
  (history.filter (fun m => !(m.role == "assistant" && m.content == ""))).map
    (fun m => ⟨m.role, PContent.str m.content⟩)

/-- The prompt list sent to the chat completion: the fixed system prompt, a
system context message when the context block is nonempty, then either the
single combined user message of an image turn or the filtered history replay
of a text turn. -/
def promptMessagesOf (contextBlock : String) (imagePayload : Option ImagePayload)
    (messageText visionDesc : String) (history : List DbMsg) : List PMsg :=
  ⟨"system", PContent.str SYSTEM_PROMPT⟩ ::
  ((if contextBlock == "" then []
    else [(⟨"system", PContent.str contextBlock⟩ : PMsg)]) ++
   (match imagePayload with
    | some img =>
      [(⟨"user", PContent.parts (imageContent messageText visionDesc img)⟩ : PMsg)]
    | none => buildHistoryPrompt history))

/-- The assistant text persisted after the chat completion on prompt `p`:
the returned text (or the unavailability message when the call raised), with
the sources block stripped when nonempty. -/
def finalTextOf (env : Env) (p : List PMsg) : String :=
  let assistantText :=
    match env.moonshot p with
    | MoonOut.ret s => s
    | _ => SLOW_MSG
  if assistantText == "" then assistantText else strip_sources_block assistantText

/-- `views.chat_send` from the smalltalk check on (after input validation,
session resolution, user-row persistence and image compression).
`imagePayload` is the compressed upload, `some` exactly when `req.upload`
is. -/
def chat_send_rest (env : Env) (prior : List DbMsg) (req : Request) (sid : Nat)
    (ev0 : List Ev) (messageText : String) (imagePayload : Option ImagePayload) :
    Response × List Ev :=
  let normalized := normalize_query messageText
  if req.upload.isNone &&
      (SMALLTALK_SET.contains normalized || normalized.length ≤ 2) then
    (Response.ok sid SMALLTALK_GREETING,
     ev0 ++ [Ev.createMessage "assistant" SMALLTALK_GREETING, Ev.updateSession])
  else
    match (if req.upload.isNone then static_response_for_query normalized else none) with
    | some sr =>
      (Response.ok sid sr, ev0 ++ [Ev.createMessage "assistant" sr, Ev.updateSession])
    | none =>
      let ev1 := ev0 ++ [Ev.createMessage "assistant" ""]
      let visionDesc : String :=
        match imagePayload with
        | none => ""
        | some img =>
          match env.moonshot (visionMessages messageText img) with
          | MoonOut.ret s => strTake 500 s
          | _ => ""
      let visionEv : List Ev :=
        match imagePayload with
        | none => []
        | some img => [Ev.visionCall (visionMessages messageText img)]
      let ctxStep : Payload × List Ev :=
        match imagePayload with
        | none => textContextStep env sid normalized messageText
        | some _ =>
          if visionDesc == "" then (emptyPayload, [])
          else
            let sq := joinSpace ([messageText, visionDesc].filter (fun s => !(s == "")))
            (env.mcp sq, [Ev.mcpCall sq])
      let cb := build_context_block ctxStep.1
      if imagePayload.isNone && cb.2.isEmpty then
        (Response.ok sid NO_SOURCES_MSG,
         ev1 ++ visionEv ++ ctxStep.2 ++ [Ev.updateMessage NO_SOURCES_MSG, Ev.updateSession])
      else
        let allMsgs := effectivePrior prior req ++
          [(⟨"user", messageText⟩ : DbMsg), (⟨"assistant", ""⟩ : DbMsg)]
        let history := (allMsgs.reverse.take MAX_HISTORY).reverse
        let promptMessages := promptMessagesOf cb.1 imagePayload messageText visionDesc history
        let finalText := finalTextOf env promptMessages
        (Response.ok sid finalText,
         ev1 ++ visionEv ++ ctxStep.2 ++
           [Ev.chatCall promptMessages, Ev.updateMessage finalText, Ev.updateSession])

/-- `views.chat_send`: validate input, resolve or create the session, persist
the user row, compress an upload if present, then hand over to
`chat_send_rest`.  `prior` is the resolved session's stored message list. -/
def chat_send (env : Env) (prior : List DbMsg) (req : Request) :
    Response × List Ev :=
  let messageText := pyStrip req.message
  if messageText == "" && req.upload.isNone then
    (Response.err 400 EMPTY_INPUT_MSG, [])
  else
    let sid := resolvedSid env req
    let resolveEv : List Ev :=
      match req.sessionId with
      | some s => [Ev.resolveSession s]
      | none => [Ev.createSession env.freshId]
    if req.sessionId.isSome && !env.sessionExists sid then
      (Response.err 404 "No ChatSession matches the given query.", resolveEv)
    else
      let ev0 := resolveEv ++ [Ev.createMessage "user" messageText, Ev.updateSession]
      match req.upload with
      | some up =>
        match env.compress up with
        | CompressOut.err m => (Response.err 400 m, ev0)
        | CompressOut.ok img =>
          chat_send_rest env prior req sid (ev0 ++ [Ev.createAttachment])
            messageText (some img)
      | none => chat_send_rest env prior req sid ev0 messageText none

/-- A concrete default oracle environment, used by witnesses. -/
def envDefault : Env where
  sessionExists := fun _ => true
  freshId := 1
  compress := fun _ => CompressOut.err "Invalid image file."
  moonshot := fun _ => MoonOut.ret "ok"
  cacheGet := fun _ => none
  sessionCacheGet := fun _ => none
  mcp := fun _ => emptyPayload

/-- A concrete environment in which the model answers with a bare sources
block: search succeeds with one result, the chat completion returns
"Sources: http://x". -/
def envC1 : Env where
  sessionExists := fun _ => true
  freshId := 1
  compress := fun _ => CompressOut.err "Invalid image file."
  moonshot := fun _ => MoonOut.ret "Sources: http://x"
  cacheGet := fun _ => none
  sessionCacheGet := fun _ => none
  mcp := fun _ => ⟨[⟨"T", "http://u", ""⟩], []⟩

/-! ### C9: empty input is rejected before any persistence -/

/-- C9: a turn with neither text (after stripping) nor an image is answered
with the 400 error, and its event trace is empty: no session is resolved or
created and no message row is written. -/
theorem empty_input_rejected (env : Env) (prior : List DbMsg) (req : Request)
    (h1 : pyStrip req.message = "") (h2 : req.upload = none) :
    (chat_send env prior req).1 = Response.err 400 EMPTY_INPUT_MSG ∧
    (chat_send env prior req).2 = [] := by
  simp [chat_send, h1, h2]

/-- Witness for C9: the all-whitespace message with no upload is rejected
with an empty trace. -/
theorem empty_input_rejected_witness :
    (chat_send envDefault [] ⟨"   ", none, none⟩).1 =
      Response.err 400 EMPTY_INPUT_MSG ∧
    (chat_send envDefault [] ⟨"   ", none, none⟩).2 = [] :=
  empty_input_rejected envDefault [] ⟨"   ", none, none⟩ (by decide) rfl

/-! ### C8: missing key/model yields a configuration message, no HTTP call -/

/-- C8: when the provider API key or the model identifier is absent from
configuration, `call_moonshot` returns the fixed configuration message (it
does not raise), and no HTTP request is attempted. -/
theorem call_moonshot_missing_config (cfg : MoonCfg) (messages : List PMsg)
    (attempt : HttpAttempt) (h : cfg.apiKey = none ∨ cfg.model = none) :
    call_moonshot cfg messages attempt = (MoonOut.ret NOT_CONFIGURED_MSG, false) := by
  rcases h with h | h <;> simp [call_moonshot, blankOpt, h]

/-- Witness for C8: with no API key configured, the gateway returns the
configuration message and makes no HTTP request. -/
theorem call_moonshot_missing_config_witness :
    call_moonshot ⟨none, some "kimi-k2"⟩ [] HttpAttempt.timeout =
      (MoonOut.ret NOT_CONFIGURED_MSG, false) :=
  call_moonshot_missing_config ⟨none, some "kimi-k2"⟩ [] HttpAttempt.timeout
    (Or.inl rfl)

/-! ### C2: a read timeout is retried exactly once -/

/-- C2: with configuration present, a read timeout on the first outbound
call is retried exactly once (two HTTP requests in total): if the retry
succeeds its text is returned, and a second consecutive timeout propagates
the timeout failure with no further attempt. -/
theorem timeout_retried_exactly_once (cfg : MoonCfg) (messages : List PMsg)
    (att : Nat → HttpAttempt) (t : String)
    (hk : blankOpt cfg.apiKey = false) (hm : blankOpt cfg.model = false)
    (h0 : att 0 = HttpAttempt.timeout) :
    (att 1 = HttpAttempt.ok t →
      call_moonshot_with_retry cfg messages att = (MoonOut.ret t, 2)) ∧
    (att 1 = HttpAttempt.timeout →
      call_moonshot_with_retry cfg messages att = (MoonOut.exnTimeout, 2)) := by
  constructor <;> intro h1 <;>
    simp [call_moonshot_with_retry, call_moonshot, hk, hm, h0, h1]

/-- Witness for C2: a concrete timeout-then-success schedule returns the
retry's text after exactly two requests. -/
theorem timeout_retried_exactly_once_witness :
    call_moonshot_with_retry ⟨some "k", some "m"⟩ []
      (fun n => if n = 0 then HttpAttempt.timeout else HttpAttempt.ok "answer") =
      (MoonOut.ret "answer", 2) :=
  (timeout_retried_exactly_once ⟨some "k", some "m"⟩ []
    (fun n => if n = 0 then HttpAttempt.timeout else HttpAttempt.ok "answer")
    "answer" rfl rfl rfl).1 rfl

/-! ### C10: `mcp_search` is total and collapses failures to the empty payload -/

/-- C10: `mcp_search` never propagates a failure: an unavailable MCP client,
a raised `search` tool call, an unparseable search result, and any raised
internal step all yield the empty payload, and a successful run's payload is
returned as is. -/
theorem mcp_search_failure_contract (env : McpEnv) (query : String)
    (maxFetch : Nat) :
    (env.clientAvailable = false → mcp_search env query maxFetch = emptyPayload) ∧
    (∀ e, env.searchOutcome query = Except.error e →
      mcp_search env query maxFetch = emptyPayload) ∧
    (env.searchOutcome query = Except.ok SearchRaw.unparseable →
      mcp_search env query maxFetch = emptyPayload) ∧
    (∀ e, run_mcp_search env query maxFetch = Except.error e →
      mcp_search env query maxFetch = emptyPayload) ∧
    (∀ p, run_mcp_search env query maxFetch = Except.ok p →
      mcp_search env query maxFetch = p) := by
  refine ⟨fun h => ?_, fun e h => ?_, fun h => ?_, fun e h => ?_, fun p h => ?_⟩
  · have hrun : run_mcp_search env query maxFetch = Except.ok emptyPayload := by
      unfold run_mcp_search
      rw [h]
      rfl
    simp [mcp_search, hrun]
  · by_cases hc : env.clientAvailable = true
    · have hrun : run_mcp_search env query maxFetch = Except.error e := by
        unfold run_mcp_search
        rw [hc, h]
        rfl
      simp [mcp_search, hrun]
    · rw [Bool.not_eq_true] at hc
      have hrun : run_mcp_search env query maxFetch = Except.ok emptyPayload := by
        unfold run_mcp_search
        rw [hc]
        rfl
      simp [mcp_search, hrun]
  · by_cases hc : env.clientAvailable = true
    · have hrun : run_mcp_search env query maxFetch = Except.ok emptyPayload := by
        unfold run_mcp_search
        rw [hc, h]
        show (match fetchLoop env (List.take maxFetch []) with
          | Except.error e => Except.error e
          | Except.ok fetched => Except.ok (⟨[], fetched⟩ : Payload)) =
          Except.ok emptyPayload
        rw [List.take_nil]
        rfl
      simp [mcp_search, hrun]
    · rw [Bool.not_eq_true] at hc
      have hrun : run_mcp_search env query maxFetch = Except.ok emptyPayload := by
        unfold run_mcp_search
        rw [hc]
        rfl
      simp [mcp_search, hrun]
  · simp [mcp_search, h]
  · simp [mcp_search, h]

/-- Witness for C10: a concrete environment whose `search` tool call raises
yields the empty payload. -/
theorem mcp_search_failure_contract_witness :
    mcp_search
      ⟨true, fun _ => Except.error (McpFail.toolError "boom"), fun _ => Except.ok "c"⟩
      "query" 2 = emptyPayload :=
  (mcp_search_failure_contract
    ⟨true, fun _ => Except.error (McpFail.toolError "boom"), fun _ => Except.ok "c"⟩
    "query" 2).2.1 (McpFail.toolError "boom") rfl

/-! ### C3: the mandatory-search classification does not exist in the code;
the freshness keywords only select a cache TTL, from a smaller set -/

/-- Modelled from the spec: the keyword set the claim says forces a
MANDATORY_SEARCH classification.  No classifier and no such set exist in the
code; this definition exists only to be compared with the code's
`FRESHNESS_KEYWORDS`. -/
def SPEC_MANDATORY_SEARCH_KEYWORDS : List String :=
  ["latest", "current", "today", "now", "recent", "released", "release",
   "version", "changelog", "price", "pricing", "ceo", "president", "law",
   "regulation", "news", "update"]

/-- Counterexample to C3: the text "recent news update" consists solely of
tokens from the claim's mandatory-search keyword set, yet the code's only
keyword-driven operation treats it like any non-fresh query: none of its
tokens is in `FRESHNESS_KEYWORDS` and `_cache_ttl_for_query` returns the
default TTL.  The claim's keyword set is not the code's set. -/
theorem mandatory_search_keywords_counterexample :
    tokenize "recent news update" = ["recent", "news", "update"] ∧
    (tokenize "recent news update").all
      (fun t => SPEC_MANDATORY_SEARCH_KEYWORDS.contains t) = true ∧
    (tokenize "recent news update").any
      (fun t => FRESHNESS_KEYWORDS.contains t) = false ∧
    cache_ttl_for_query "recent news update" = DEFAULT_CACHE_TTL_SECONDS ∧
    ¬ SPEC_MANDATORY_SEARCH_KEYWORDS.all
      (fun t => FRESHNESS_KEYWORDS.contains t) = true := by
  exact ⟨by decide, by decide, by decide, by decide, by decide⟩

/-- C3 amended: the code has no MANDATORY_SEARCH classification; its only
keyword-sensitive behaviour is cache-TTL selection.  A query gets the
15-minute fresh TTL exactly when some token of length greater than 2 of its
normalized text is in the fixed set latest/today/now/current/price/release/
version/new, and the 30-minute default TTL otherwise. -/
theorem cache_ttl_for_query_characterization (q : String) :
    (cache_ttl_for_query q = FRESH_CACHE_TTL_SECONDS ↔
      ∃ t, t ∈ tokenize q ∧ t ∈ FRESHNESS_KEYWORDS) ∧
    (cache_ttl_for_query q = FRESH_CACHE_TTL_SECONDS ∨
      cache_ttl_for_query q = DEFAULT_CACHE_TTL_SECONDS) ∧
    FRESH_CACHE_TTL_SECONDS ≠ DEFAULT_CACHE_TTL_SECONDS := by
  unfold cache_ttl_for_query
  by_cases h : (tokenize q).any (fun t => FRESHNESS_KEYWORDS.contains t)
  · rw [if_pos h]
    refine ⟨⟨fun _ => ?_, fun _ => rfl⟩, Or.inl rfl, by decide⟩
    rcases List.any_eq_true.mp h with ⟨t, ht, hmem⟩
    exact ⟨t, ht, List.elem_iff.mp hmem⟩
  · rw [if_neg h]
    refine ⟨⟨fun he => absurd he (by decide), fun hex => ?_⟩, Or.inr rfl, by decide⟩
    rcases hex with ⟨t, ht, hmem⟩
    exact absurd (List.any_eq_true.mpr ⟨t, ht, List.elem_iff.mpr hmem⟩) h

/-! ### Inversion: what a chat-completion call in the trace implies -/

/-- The cache/search block emits no chat-completion call. -/
theorem textContextStep_no_chatCall (env : Env) (sid : Nat)
    (normalized messageText : String) (q : List PMsg) :
    Ev.chatCall q ∉ (textContextStep env sid normalized messageText).2 := by
  intro hmem
  unfold textContextStep at hmem
  by_cases h1 : payload_has_context ((env.cacheGet normalized).getD emptyPayload) = true
  · rw [if_pos h1] at hmem
    simp at hmem
  · rw [if_neg h1] at hmem
    by_cases h2 : (payload_has_context (match env.sessionCacheGet sid with
        | some e => e.payload
        | none => emptyPayload) &&
      can_reuse_context normalized (match env.sessionCacheGet sid with
        | some e => e.query
        | none => "")) = true
    · rw [if_pos h2] at hmem
      simp at hmem
    · rw [if_neg h2] at hmem
      simp at hmem

/-- The history expression `chat_send` queries for a text-only turn: the
rows stored before the turn plus the user row and the placeholder, last
`MAX_HISTORY` of them. -/
def historyExpr (prior : List DbMsg) (req : Request) (messageText : String) :
    List DbMsg :=
  ((effectivePrior prior req ++
    [(⟨"user", messageText⟩ : DbMsg), (⟨"assistant", ""⟩ : DbMsg)]).reverse.take
      MAX_HISTORY).reverse

/-- If the trace of `chat_send_rest` contains a chat-completion call on
prompt `p`, then the turn's response and persisted assistant text are
`finalTextOf env p`, and `p` is the assembled prompt: system preamble and
either the filtered history window (text turn) or the single combined user
message (image turn). -/
theorem chat_send_rest_inversion (env : Env) (prior : List DbMsg) (req : Request)
    (sid : Nat) (ev0 : List Ev) (messageText : String)
    (imagePayload : Option ImagePayload) (p : List PMsg)
    (hev0 : ∀ q, Ev.chatCall q ∉ ev0)
    (h : Ev.chatCall p ∈ (chat_send_rest env prior req sid ev0 messageText imagePayload).2) :
    (chat_send_rest env prior req sid ev0 messageText imagePayload).1 =
      Response.ok sid (finalTextOf env p) ∧
    Ev.updateMessage (finalTextOf env p) ∈
      (chat_send_rest env prior req sid ev0 messageText imagePayload).2 ∧
    ∃ ctxBlock desc,
      p = promptMessagesOf ctxBlock imagePayload messageText desc
        (historyExpr prior req messageText) := by
  unfold chat_send_rest at h ⊢
  by_cases hc1 : (req.upload.isNone &&
      (SMALLTALK_SET.contains (normalize_query messageText) ||
       decide ((normalize_query messageText).length ≤ 2))) = true
  · exfalso
    simp only [hc1, eq_self_iff_true, if_true] at h
    rcases List.mem_append.mp h with h' | h'
    · exact hev0 p h'
    · simp at h'
  · rw [Bool.not_eq_true] at hc1
    simp only [hc1, Bool.false_eq_true, if_false] at h ⊢
    cases hst : (if req.upload.isNone = true then
        static_response_for_query (normalize_query messageText) else none) with
    | some sr =>
      exfalso
      simp only [hst] at h
      rcases List.mem_append.mp h with h' | h'
      · exact hev0 p h'
      · simp at h'
    | none =>
      simp only [hst] at h ⊢
      cases imagePayload with
      | none =>
        simp only [Option.isNone_none, Bool.true_and] at h ⊢
        by_cases hsrc :
            ((build_context_block
              (textContextStep env sid (normalize_query messageText) messageText).1).2.isEmpty) = true
        · exfalso
          simp only [hsrc, eq_self_iff_true, if_true] at h
          simp only [List.mem_append, List.mem_cons, List.not_mem_nil, or_false,
            false_or, or_assoc] at h
          rcases h with h | h | h | h | h
          · exact hev0 p h
          · exact Ev.noConfusion h
          · exact absurd h (textContextStep_no_chatCall env sid _ _ p)
          · exact Ev.noConfusion h
          · exact Ev.noConfusion h
        · simp only [hsrc, Bool.false_eq_true, if_false] at h ⊢
          simp only [List.mem_append, List.mem_cons, List.not_mem_nil, or_false,
            false_or, or_assoc] at h
          rcases h with h | h | h | h | h | h
          · exact absurd h (hev0 p)
          · exact Ev.noConfusion h
          · exact absurd h (textContextStep_no_chatCall env sid _ _ p)
          · have hp := Ev.chatCall.inj h
            subst hp
            refine ⟨rfl, by simp, ⟨_, "", rfl⟩⟩
          · exact Ev.noConfusion h
          · exact Ev.noConfusion h
      | some img =>
        simp only [Option.isNone_some, Bool.false_and, Bool.false_eq_true,
          if_false] at h ⊢
        simp only [List.mem_append, List.mem_cons, List.not_mem_nil, or_false,
          false_or, or_assoc] at h
        rcases h with h | h | h | h | h | h | h
        · exact absurd h (hev0 p)
        · exact Ev.noConfusion h
        · exact Ev.noConfusion h
        · exfalso
          split at h
          · simp at h
          · simp at h
        · have hp := Ev.chatCall.inj h
          subst hp
          refine ⟨rfl, by simp, ⟨_, _, rfl⟩⟩
        · exact Ev.noConfusion h
        · exact Ev.noConfusion h

/-- Lifting of `chat_send_rest_inversion` to `chat_send`: a chat-completion
call on prompt `p` in a request's trace determines the response and the
persisted text, and exhibits `p` as the assembled prompt; the prompt carries
an image payload exactly when the request carried an upload. -/
theorem chat_send_chatCall_inversion (env : Env) (prior : List DbMsg)
    (req : Request) (p : List PMsg)
    (h : Ev.chatCall p ∈ (chat_send env prior req).2) :
    (chat_send env prior req).1 =
      Response.ok (resolvedSid env req) (finalTextOf env p) ∧
    Ev.updateMessage (finalTextOf env p) ∈ (chat_send env prior req).2 ∧
    ∃ ctxBlock desc imagePayload,
      (imagePayload = none ↔ req.upload = none) ∧
      p = promptMessagesOf ctxBlock imagePayload (pyStrip req.message) desc
        (historyExpr prior req (pyStrip req.message)) := by
  unfold chat_send at h ⊢
  by_cases hval : (pyStrip req.message == "" && req.upload.isNone) = true
  · exfalso
    simp only [hval, eq_self_iff_true, if_true] at h
    simp at h
  · rw [Bool.not_eq_true] at hval
    simp only [hval, Bool.false_eq_true, if_false] at h ⊢
    by_cases h404 : (req.sessionId.isSome && !env.sessionExists (resolvedSid env req)) = true
    · exfalso
      simp only [h404, eq_self_iff_true, if_true] at h
      cases hsid : req.sessionId with
      | none => simp [hsid] at h
      | some s => simp [hsid] at h
    · rw [Bool.not_eq_true] at h404
      simp only [h404, Bool.false_eq_true, if_false] at h ⊢
      cases hu : req.upload with
      | none =>
        simp only [hu] at h ⊢
        obtain ⟨g1, g2, ctxBlock, desc, hp⟩ := chat_send_rest_inversion env prior req
          (resolvedSid env req) _ (pyStrip req.message) none p
          (by
            intro q hq
            cases hsid : req.sessionId with
            | none => simp [hsid] at hq
            | some s => simp [hsid] at hq) h
        exact ⟨g1, g2, ctxBlock, desc, none, by simp [hu], hp⟩
      | some up =>
        simp only [hu] at h ⊢
        cases hcmp : env.compress up with
        | err m =>
          exfalso
          simp only [hcmp] at h
          cases hsid : req.sessionId with
          | none => simp [hsid] at h
          | some s => simp [hsid] at h
        | ok img =>
          simp only [hcmp] at h ⊢
          obtain ⟨g1, g2, ctxBlock, desc, hp⟩ := chat_send_rest_inversion env prior req
            (resolvedSid env req) _ (pyStrip req.message) (some img) p
            (by
              intro q hq
              cases hsid : req.sessionId with
              | none => simp [hsid] at hq
              | some s => simp [hsid] at hq) h
          exact ⟨g1, g2, ctxBlock, desc, some img, by simp [hu], hp⟩

/-! ### C5: the assembled prompt -/

/-- The claim-side description of the text-turn history window: the last `n`
persisted messages of the session, oldest-first, with empty-content
assistant placeholders filtered out. -/
def historyWindowSpec (n : Nat) (l : List DbMsg) : List DbMsg :=
  (l.drop (l.length - n)).filter
    (fun m => !(m.role == "assistant" && m.content == ""))

/-- The code's reversed-descending-take-reversed window equals the last-`n`
window. -/
theorem reverse_take_reverse_eq_drop (l : List DbMsg) (n : Nat) :
    (l.reverse.take n).reverse = l.drop (l.length - n) := by
  rw [← List.rtake_eq_reverse_take_reverse]
  rfl

/-- The history replay the code builds equals the claim-side window, mapped
into prompt messages. -/
theorem buildHistoryPrompt_historyExpr (prior : List DbMsg) (req : Request)
    (mt : String) :
    buildHistoryPrompt (historyExpr prior req mt) =
      (historyWindowSpec MAX_HISTORY
        (effectivePrior prior req ++
          [(⟨"user", mt⟩ : DbMsg), (⟨"assistant", ""⟩ : DbMsg)])).map
        (fun m => (⟨m.role, PContent.str m.content⟩ : PMsg)) := by
  unfold buildHistoryPrompt historyExpr historyWindowSpec
  rw [reverse_take_reverse_eq_drop]

/-- C5: every prompt the chat completion is called on consists of the system
preamble (the fixed system prompt plus at most one system context message)
followed, on a text-only turn, by the last `MAX_HISTORY` persisted messages
of the session in oldest-first order with empty-content assistant
placeholders filtered out, and, on an image-bearing turn, by a single
combined user message holding the trimmed text parts and the image
reference — no prior history is replayed. -/
theorem prompt_assembly_spec (env : Env) (prior : List DbMsg) (req : Request)
    (p : List PMsg)
    (h : Ev.chatCall p ∈ (chat_send env prior req).2) :
    (req.upload = none →
      ∃ ctx, (ctx = [] ∨ ∃ c, ctx = [(⟨"system", PContent.str c⟩ : PMsg)]) ∧
        p = ⟨"system", PContent.str SYSTEM_PROMPT⟩ :: ctx ++
          (historyWindowSpec MAX_HISTORY
            (effectivePrior prior req ++
              [(⟨"user", pyStrip req.message⟩ : DbMsg),
               (⟨"assistant", ""⟩ : DbMsg)])).map
            (fun m => (⟨m.role, PContent.str m.content⟩ : PMsg))) ∧
    (∀ u, req.upload = some u →
      ∃ ctx img desc,
        (ctx = [] ∨ ∃ c, ctx = [(⟨"system", PContent.str c⟩ : PMsg)]) ∧
        p = ⟨"system", PContent.str SYSTEM_PROMPT⟩ :: ctx ++
          [(⟨"user", PContent.parts
            (imageContent (pyStrip req.message) desc img)⟩ : PMsg)]) := by
  obtain ⟨-, -, ctxBlock, desc, imagePayload, hiff, hp⟩ :=
    chat_send_chatCall_inversion env prior req p h
  constructor
  · intro hu
    have hnone : imagePayload = none := hiff.mpr hu
    subst hnone
    refine ⟨(if ctxBlock == "" then []
      else [(⟨"system", PContent.str ctxBlock⟩ : PMsg)]), ?_, ?_⟩
    · by_cases hc : (ctxBlock == "") = true
      · rw [if_pos hc]
        exact Or.inl rfl
      · rw [if_neg hc]
        exact Or.inr ⟨ctxBlock, rfl⟩
    · rw [hp]
      unfold promptMessagesOf
      rw [buildHistoryPrompt_historyExpr]
      rfl
  · intro u hu
    cases himg : imagePayload with
    | none =>
      rw [himg] at hiff
      rw [hiff.mp rfl] at hu
      exact Option.noConfusion hu
    | some img =>
      subst himg
      refine ⟨(if ctxBlock == "" then []
        else [(⟨"system", PContent.str ctxBlock⟩ : PMsg)]), img, desc, ?_, ?_⟩
      · by_cases hc : (ctxBlock == "") = true
        · rw [if_pos hc]
          exact Or.inl rfl
        · rw [if_neg hc]
          exact Or.inr ⟨ctxBlock, rfl⟩
      · rw [hp]
        rfl

set_option maxRecDepth 4096 in
/-- Witness for C5: for a concrete text-only request the prompt sent to the
model is the system prompt, one system context message, and the single
history row that survives the filter (the user row; the placeholder is
filtered out). -/
theorem prompt_assembly_spec_witness :
    ∃ ctx, (ctx = [] ∨ ∃ c, ctx = [(⟨"system", PContent.str c⟩ : PMsg)]) ∧
      ([(⟨"system", PContent.str SYSTEM_PROMPT⟩ : PMsg),
        ⟨"system", PContent.str "Web search context:\n- T: http://u"⟩,
        ⟨"user", PContent.str "tell me about lean"⟩] : List PMsg) =
      ⟨"system", PContent.str SYSTEM_PROMPT⟩ :: ctx ++
        (historyWindowSpec MAX_HISTORY
          (effectivePrior [] ⟨"tell me about lean", none, none⟩ ++
            [(⟨"user", pyStrip "tell me about lean"⟩ : DbMsg),
             (⟨"assistant", ""⟩ : DbMsg)])).map
          (fun m => (⟨m.role, PContent.str m.content⟩ : PMsg)) :=
  (prompt_assembly_spec envC1 [] ⟨"tell me about lean", none, none⟩
    [⟨"system", PContent.str SYSTEM_PROMPT⟩,
     ⟨"system", PContent.str "Web search context:\n- T: http://u"⟩,
     ⟨"user", PContent.str "tell me about lean"⟩]
    (by decide)).1 rfl

/-! ### C1 amended: the only substitution is the unavailability message on a
raised model call -/

/-- C1 amended: when the model call on the assembled prompt raises (any
non-returning outcome), the fixed unavailability message is persisted and
returned — that path never persists the empty string; but no substitution
exists for an empty returned text (see the counterexample). -/
theorem model_failure_substitutes_slow_message (env : Env) (prior : List DbMsg)
    (req : Request) (p : List PMsg)
    (h : Ev.chatCall p ∈ (chat_send env prior req).2)
    (hf : ∀ s, env.moonshot p ≠ MoonOut.ret s) :
    (chat_send env prior req).1 =
      Response.ok (resolvedSid env req) SLOW_MSG ∧
    Ev.updateMessage SLOW_MSG ∈ (chat_send env prior req).2 ∧
    SLOW_MSG ≠ "" := by
  obtain ⟨g1, g2, -⟩ := chat_send_chatCall_inversion env prior req p h
  have hft : finalTextOf env p = SLOW_MSG := by
    unfold finalTextOf
    cases hm : env.moonshot p with
    | ret s => exact absurd hm (hf s)
    | exnTimeout => rfl
    | exnHttp st body => rfl
  rw [hft] at g1 g2
  exact ⟨g1, g2, by decide⟩

/-- The environment of the C1 counterexample with a model call that raises. -/
def envC1b : Env where
  sessionExists := fun _ => true
  freshId := 1
  compress := fun _ => CompressOut.err "Invalid image file."
  moonshot := fun _ => MoonOut.exnTimeout
  cacheGet := fun _ => none
  sessionCacheGet := fun _ => none
  mcp := fun _ => ⟨[⟨"T", "http://u", ""⟩], []⟩

set_option maxRecDepth 4096 in
/-- Witness for the amended C1: with a timing-out model the concrete turn
persists and returns the unavailability message. -/
theorem model_failure_substitutes_slow_message_witness :
    (chat_send envC1b [] ⟨"tell me about lean", none, none⟩).1 =
      Response.ok (resolvedSid envC1b ⟨"tell me about lean", none, none⟩) SLOW_MSG ∧
    Ev.updateMessage SLOW_MSG ∈
      (chat_send envC1b [] ⟨"tell me about lean", none, none⟩).2 ∧
    SLOW_MSG ≠ "" :=
  model_failure_substitutes_slow_message envC1b [] ⟨"tell me about lean", none, none⟩
    [⟨"system", PContent.str SYSTEM_PROMPT⟩,
     ⟨"system", PContent.str "Web search context:\n- T: http://u"⟩,
     ⟨"user", PContent.str "tell me about lean"⟩]
    (by decide) (fun s h => MoonOut.noConfusion h)

/-! ### C4: small talk short-circuits to the canned greeting -/

/-- C4: a turn with no image whose normalized text is in the small-talk set
or has length at most 2 (and nonempty raw text, so it passes input
validation, against an existing or fresh session) is answered with exactly
the canned greeting, the greeting is persisted as the assistant row, and no
outbound model call of either kind is made. -/
theorem smalltalk_short_circuit (env : Env) (prior : List DbMsg) (req : Request)
    (hu : req.upload = none)
    (hne : ¬ pyStrip req.message = "")
    (hs : req.sessionId = none ∨
      ∃ s, req.sessionId = some s ∧ env.sessionExists s = true)
    (hsm : SMALLTALK_SET.contains (normalize_query (pyStrip req.message)) = true ∨
      (normalize_query (pyStrip req.message)).length ≤ 2) :
    (chat_send env prior req).1 =
      Response.ok (resolvedSid env req) SMALLTALK_GREETING ∧
    Ev.createMessage "assistant" SMALLTALK_GREETING ∈ (chat_send env prior req).2 ∧
    ∀ msgs, Ev.visionCall msgs ∉ (chat_send env prior req).2 ∧
      Ev.chatCall msgs ∉ (chat_send env prior req).2 := by
  have hbeq : (pyStrip req.message == "") = false := by
    simpa using hne
  have hP : normalize_query (pyStrip req.message) ∈ SMALLTALK_SET ∨
      (normalize_query (pyStrip req.message)).length ≤ 2 := by
    rcases hsm with h | h
    · exact Or.inl (by simpa using h)
    · exact Or.inr h
  rcases hs with hs | ⟨s, hs, hex⟩
  · simp [chat_send, chat_send_rest, hu, hs, hbeq, hP, resolvedSid]
  · simp [chat_send, chat_send_rest, hu, hs, hex, hbeq, hP, resolvedSid]

/-- Witness for C4: the message "hi" is answered with the canned greeting,
the greeting row is created, and no model call appears in the trace. -/
theorem smalltalk_short_circuit_witness :
    (chat_send envDefault [] ⟨"hi", none, none⟩).1 =
      Response.ok (resolvedSid envDefault ⟨"hi", none, none⟩) SMALLTALK_GREETING ∧
    Ev.createMessage "assistant" SMALLTALK_GREETING ∈
      (chat_send envDefault [] ⟨"hi", none, none⟩).2 ∧
    ∀ msgs, Ev.visionCall msgs ∉ (chat_send envDefault [] ⟨"hi", none, none⟩).2 ∧
      Ev.chatCall msgs ∉ (chat_send envDefault [] ⟨"hi", none, none⟩).2 :=
  smalltalk_short_circuit envDefault [] ⟨"hi", none, none⟩ rfl (by decide)
    (Or.inl rfl) (Or.inl (by decide))

/-! ### C6: stripping the sources block -/

/-- The needle occurs in the haystack at index `i`. -/
def occursAt (hay pat : List Char) (i : Nat) : Prop :=
  pat.isPrefixOf (hay.drop i) = true

instance occursAtDec (hay pat : List Char) (i : Nat) :
    Decidable (occursAt hay pat i) :=
  inferInstanceAs (Decidable (pat.isPrefixOf (hay.drop i) = true))

/-- A nonempty needle does not occur at or beyond the end of the haystack. -/
theorem occursAt_ge_length (hay pat : List Char) (hne : pat ≠ []) (i : Nat)
    (hge : hay.length ≤ i) : ¬ occursAt hay pat i := by
  unfold occursAt
  rw [List.drop_eq_nil_of_le hge]
  cases pat with
  | nil => exact absurd rfl hne
  | cons a l => simp [List.isPrefixOf]

/-- If `findSub` reports no occurrence, there is none. -/
theorem findSub_eq_none (hay pat : List Char) (h : findSub hay pat = none) :
    ∀ i, ¬ occursAt hay pat i := by
  induction hay with
  | nil =>
    intro i
    unfold findSub at h
    unfold occursAt
    rw [List.drop_nil]
    intro hocc
    rw [if_pos hocc] at h
    exact Option.noConfusion h
  | cons c t ih =>
    intro i
    unfold findSub at h
    by_cases hp : pat.isPrefixOf (c :: t)
    · rw [if_pos hp] at h
      exact Option.noConfusion h
    · rw [if_neg hp] at h
      cases i with
      | zero => exact fun hocc => hp hocc
      | succ j =>
        have h' : Option.map (fun x => x + 1) (findSub t pat) = none := h
        have ht : findSub t pat = none := by
          cases hft : findSub t pat with
          | none => rfl
          | some k => rw [hft] at h'; exact Option.noConfusion h'
        intro hocc
        exact ih ht j hocc

/-- `findSub` reports the first occurrence. -/
theorem findSub_eq_some (hay pat : List Char) :
    ∀ i, findSub hay pat = some i →
      occursAt hay pat i ∧ ∀ j, j < i → ¬ occursAt hay pat j := by
  induction hay with
  | nil =>
    intro i h
    unfold findSub at h
    by_cases hp : pat.isPrefixOf ([] : List Char)
    · rw [if_pos hp] at h
      cases h
      exact ⟨hp, fun j hj => absurd hj (Nat.not_lt_zero j)⟩
    · rw [if_neg hp] at h
      exact Option.noConfusion h
  | cons c t ih =>
    intro i h
    unfold findSub at h
    by_cases hp : pat.isPrefixOf (c :: t)
    · rw [if_pos hp] at h
      cases h
      exact ⟨hp, fun j hj => absurd hj (Nat.not_lt_zero j)⟩
    · rw [if_neg hp] at h
      have h' : Option.map (fun x => x + 1) (findSub t pat) = some i := h
      rcases Option.map_eq_some'.mp h' with ⟨k, hk, hik⟩
      obtain ⟨h1, h2⟩ := ih k hk
      subst hik
      refine ⟨h1, fun j hj => ?_⟩
      cases j with
      | zero => exact fun hocc => hp hocc
      | succ j' =>
        exact fun hocc => h2 j' (Nat.lt_of_succ_lt_succ hj) hocc

/-- C6: `_strip_sources_block` maps the concrete example to "Answer text";
on any string with no case-insensitive occurrence of "sources:" it is the
identity; and on any string whose first occurrence (in the lowercased text)
is at index `i` it returns the right-stripped prefix of length `i`. -/
theorem strip_sources_block_spec :
    strip_sources_block ("Answer text\nSources: http://x") = "Answer text" ∧
    (∀ s : String,
      (∀ i, i < s.data.length →
        ¬ occursAt (s.data.map Char.toLower) "sources:".data i) →
      strip_sources_block s = s) ∧
    (∀ s : String, ∀ i,
      occursAt (s.data.map Char.toLower) "sources:".data i →
      (∀ j, j < i → ¬ occursAt (s.data.map Char.toLower) "sources:".data j) →
      strip_sources_block s = ⟨rstripL (s.data.take i)⟩) := by
  refine ⟨by decide, fun s hb => ?_, fun s i hocc hmin => ?_⟩
  · have hall : ∀ i, ¬ occursAt (s.data.map Char.toLower) "sources:".data i := by
      intro i
      by_cases hlt : i < s.data.length
      · exact hb i hlt
      · apply occursAt_ge_length _ _ (by decide)
        rw [List.length_map]
        omega
    have hnone : findSub (s.data.map Char.toLower) "sources:".data = none := by
      cases hfs : findSub (s.data.map Char.toLower) "sources:".data with
      | none => rfl
      | some k =>
        obtain ⟨h1, _⟩ := findSub_eq_some _ _ k hfs
        exact absurd h1 (hall k)
    unfold strip_sources_block
    rw [hnone]
  · cases hfs : findSub (s.data.map Char.toLower) "sources:".data with
    | none => exact absurd hocc (findSub_eq_none _ _ hfs i)
    | some k =>
      obtain ⟨h1, h2⟩ := findSub_eq_some _ _ k hfs
      have hik : k = i := by
        rcases Nat.lt_trichotomy k i with hlt | heq | hgt
        · exact absurd h1 (hmin k hlt)
        · exact heq
        · exact absurd hocc (h2 i hgt)
      subst hik
      unfold strip_sources_block
      rw [hfs]

/-- Witness for C6: a string without the marker is returned unchanged. -/
theorem strip_sources_block_spec_witness :
    strip_sources_block "hello world" = "hello world" :=
  (strip_sources_block_spec).2.1 "hello world" (by decide)

/-! ### C1: an empty assistant text is persisted empty, not replaced by a
fallback string -/

/-- Counterexample to C1: when the model's reply is exactly a sources block,
sources-stripping leaves the empty string, and `chat_send` persists and
returns that empty string; no fallback is substituted. -/
theorem empty_assistant_reply_persisted :
    (chat_send envC1 [] ⟨"tell me about lean", none, none⟩).1 =
      Response.ok 1 "" ∧
    Ev.updateMessage "" ∈
      (chat_send envC1 [] ⟨"tell me about lean", none, none⟩).2 := by
  exact ⟨by decide, by decide⟩

/-! ### C7: the message normalizer is idempotent -/

/-- `Char.toLower` is idempotent: a lowered character is never in the
upper-case range again. -/
theorem toLower_toLower (c : Char) : c.toLower.toLower = c.toLower := by
  by_cases h : c.toNat ≥ 65 ∧ c.toNat ≤ 90
  · have h1 : c.toLower = Char.ofNat (c.toNat + 32) := by
      unfold Char.toLower
      rw [if_pos h]
    rw [h1]
    obtain ⟨ha, hb⟩ := h
    generalize hq : c.toNat = n
    rw [hq] at ha hb
    interval_cases n <;> decide
  · have h1 : c.toLower = c := by
      unfold Char.toLower
      rw [if_neg h]
    rw [h1]
    exact h1

/-- A map that fixes every member of a list is the identity on it. -/
theorem map_id_on (f : Char → Char) (m : List Char) (h : ∀ c ∈ m, f c = c) :
    m.map f = m := by
  induction m with
  | nil => rfl
  | cons a m ih =>
    rw [List.map_cons, h a (List.mem_cons_self a m),
      ih (fun c hc => h c (List.mem_cons_of_mem a hc))]

/-- The tokens `wsSplitAux` produces are nonempty, whitespace-free, and made
of characters of the input or the accumulator. -/
theorem wsSplitAux_tokens : ∀ (l acc : List Char),
    (∀ c ∈ acc, pyIsSpace c = false) →
    ∀ t ∈ wsSplitAux l acc,
      t ≠ [] ∧ ∀ c ∈ t, pyIsSpace c = false ∧ (c ∈ l ∨ c ∈ acc) := by
  intro l
  induction l with
  | nil =>
    intro acc hacc t ht
    unfold wsSplitAux at ht
    by_cases he : acc.isEmpty = true
    · rw [if_pos he] at ht
      exact absurd ht (List.not_mem_nil t)
    · rw [if_neg he] at ht
      rcases List.mem_singleton.mp ht with rfl
      constructor
      · intro hrev
        rw [List.reverse_eq_nil_iff] at hrev
        subst hrev
        simp at he
      · intro c hc
        rw [List.mem_reverse] at hc
        exact ⟨hacc c hc, Or.inr hc⟩
  | cons a l ih =>
    intro acc hacc t ht
    unfold wsSplitAux at ht
    by_cases hsp : pyIsSpace a = true
    · rw [if_pos hsp] at ht
      by_cases he : acc.isEmpty = true
      · rw [if_pos he] at ht
        obtain ⟨h1, h2⟩ := ih [] (by simp) t ht
        refine ⟨h1, fun c hc => ⟨(h2 c hc).1, ?_⟩⟩
        exact Or.inl (List.mem_cons_of_mem a ((h2 c hc).2.resolve_right (by simp)))
      · rw [if_neg he] at ht
        rcases List.mem_cons.mp ht with rfl | ht2
        · constructor
          · intro hrev
            rw [List.reverse_eq_nil_iff] at hrev
            subst hrev
            simp at he
          · intro c hc
            rw [List.mem_reverse] at hc
            exact ⟨hacc c hc, Or.inr hc⟩
        · obtain ⟨h1, h2⟩ := ih [] (by simp) t ht2
          refine ⟨h1, fun c hc => ⟨(h2 c hc).1, ?_⟩⟩
          exact Or.inl (List.mem_cons_of_mem a ((h2 c hc).2.resolve_right (by simp)))
    · rw [if_neg hsp] at ht
      rw [Bool.not_eq_true] at hsp
      have hacc2 : ∀ c ∈ a :: acc, pyIsSpace c = false := by
        intro c hc
        rcases List.mem_cons.mp hc with rfl | hc2
        · exact hsp
        · exact hacc c hc2
      obtain ⟨h1, h2⟩ := ih (a :: acc) hacc2 t ht
      refine ⟨h1, fun c hc => ?_⟩
      obtain ⟨hc1, hc2⟩ := h2 c hc
      refine ⟨hc1, ?_⟩
      rcases hc2 with hcl | hca
      · exact Or.inl (List.mem_cons_of_mem a hcl)
      · rcases List.mem_cons.mp hca with heq | hca2
        · exact Or.inl (by rw [heq]; exact List.mem_cons_self a l)
        · exact Or.inr hca2

/-- Feeding a whitespace-free chunk into `wsSplitAux` accumulates it. -/
theorem wsSplitAux_append_token : ∀ (t r acc : List Char),
    (∀ c ∈ t, pyIsSpace c = false) →
    wsSplitAux (t ++ r) acc = wsSplitAux r (t.reverse ++ acc) := by
  intro t
  induction t with
  | nil =>
    intro r acc _
    simp
  | cons a t ih =>
    intro r acc h
    have ha : pyIsSpace a = false := h a (List.mem_cons_self a t)
    show wsSplitAux (a :: (t ++ r)) acc = wsSplitAux r ((a :: t).reverse ++ acc)
    conv_lhs => unfold wsSplitAux
    rw [if_neg (by rw [ha]; exact Bool.false_ne_true)]
    rw [ih r (a :: acc) (fun c hc => h c (List.mem_cons_of_mem a hc))]
    congr 1
    rw [List.reverse_cons, List.append_assoc]
    rfl

/-- Splitting the space-join of nonempty whitespace-free tokens gives the
tokens back. -/
theorem wsSplit_joinSp : ∀ ts : List (List Char),
    (∀ t ∈ ts, t ≠ [] ∧ ∀ c ∈ t, pyIsSpace c = false) →
    wsSplit (joinSp ts) = ts := by
  intro ts
  induction ts with
  | nil =>
    intro _
    rfl
  | cons t ts ih =>
    intro h
    obtain ⟨ht, hcs⟩ := h t (List.mem_cons_self t ts)
    cases ts with
    | nil =>
      show wsSplitAux (joinSp [t]) [] = [t]
      have h1 := wsSplitAux_append_token t [] [] hcs
      rw [List.append_nil] at h1
      show wsSplitAux t [] = [t]
      rw [h1]
      unfold wsSplitAux
      rw [if_neg (by
        rw [List.append_nil, List.isEmpty_iff, List.reverse_eq_nil_iff]
        exact ht)]
      rw [List.append_nil, List.reverse_reverse]
    | cons t2 ts2 =>
      have hrest := ih (fun u hu => h u (List.mem_cons_of_mem t hu))
      show wsSplitAux (joinSp (t :: t2 :: ts2)) [] = t :: t2 :: ts2
      rw [show joinSp (t :: t2 :: ts2) = t ++ (' ' :: joinSp (t2 :: ts2)) from rfl]
      rw [wsSplitAux_append_token t _ [] hcs]
      unfold wsSplitAux
      rw [if_pos (show pyIsSpace ' ' = true from rfl)]
      rw [if_neg (by
        rw [List.append_nil, List.isEmpty_iff, List.reverse_eq_nil_iff]
        exact ht)]
      unfold wsSplit at hrest
      rw [hrest, List.append_nil, List.reverse_reverse]

/-- Every character of a space-join is a space or a token character. -/
theorem mem_joinSp : ∀ (ts : List (List Char)) (c : Char), c ∈ joinSp ts →
    c = ' ' ∨ ∃ t, t ∈ ts ∧ c ∈ t := by
  intro ts
  induction ts with
  | nil =>
    intro c hc
    simp [joinSp] at hc
  | cons t ts ih =>
    intro c hc
    cases ts with
    | nil =>
      exact Or.inr ⟨t, List.mem_cons_self t [], by simpa [joinSp] using hc⟩
    | cons t2 ts2 =>
      rw [show joinSp (t :: t2 :: ts2) = t ++ (' ' :: joinSp (t2 :: ts2)) from rfl] at hc
      rcases List.mem_append.mp hc with h1 | h1
      · exact Or.inr ⟨t, List.mem_cons_self t _, h1⟩
      · rcases List.mem_cons.mp h1 with rfl | h2
        · exact Or.inl rfl
        · rcases ih c h2 with h3 | ⟨u, hu, hcu⟩
          · exact Or.inl h3
          · exact Or.inr ⟨u, List.mem_cons_of_mem t hu, hcu⟩

/-- A non-space output character of the clean-after-lower pass is fixed by
running the pass again. -/
theorem clean_lower_fix (d : Char)
    (hsp : pyIsSpace (cleanChar (Char.toLower d)) = false) :
    cleanChar (Char.toLower (cleanChar (Char.toLower d))) =
      cleanChar (Char.toLower d) := by
  by_cases ha : (Char.toLower d).isAlphanum = true
  · have h1 : cleanChar (Char.toLower d) = Char.toLower d := by
      unfold cleanChar
      rw [if_pos ha]
    rw [h1, toLower_toLower]
    exact h1
  · have h1 : cleanChar (Char.toLower d) = ' ' := by
      unfold cleanChar
      rw [if_neg ha]
    rw [h1] at hsp
    exact absurd hsp (by decide)

/-- Idempotence of `_normalize_query` at the character-list level. -/
theorem normalizeL_idem (l : List Char) :
    normalizeL (normalizeL l) = normalizeL l := by
  have htok := wsSplitAux_tokens ((l.map Char.toLower).map cleanChar) [] (by simp)
  unfold normalizeL
  have hmap : ((joinSp (wsSplit ((l.map Char.toLower).map cleanChar))).map
        Char.toLower).map cleanChar
      = joinSp (wsSplit ((l.map Char.toLower).map cleanChar)) := by
    rw [List.map_map]
    apply map_id_on
    intro c hc
    rcases mem_joinSp _ c hc with rfl | ⟨t, ht, hct⟩
    · rfl
    · obtain ⟨-, hall⟩ := htok t (by simpa [wsSplit] using ht)
      obtain ⟨hsp, hmem⟩ := hall c hct
      have hmem2 : c ∈ (l.map Char.toLower).map cleanChar :=
        hmem.resolve_right (by simp)
      rw [List.map_map] at hmem2
      rcases List.mem_map.mp hmem2 with ⟨d, -, rfl⟩
      simp only [Function.comp_apply] at hsp ⊢
      exact clean_lower_fix d hsp
  rw [hmap]
  congr 1
  apply wsSplit_joinSp
  intro t ht
  obtain ⟨hne, hall⟩ := htok t (by simpa [wsSplit] using ht)
  exact ⟨hne, fun c hc => (hall c hc).1⟩

/-- C7: the message normalizer is a total function (it is a Lean function),
and it is idempotent: normalizing its own output is a no-op. -/
theorem normalize_query_idempotent (s : String) :
    normalize_query (normalize_query s) = normalize_query s :=
  congrArg String.mk (normalizeL_idem s.data)

end Chat
